import Mathlib

set_option autoImplicit false

/-!
Shallow embedding of the read classification, aggregation and bootstrap
enrichment engine of analyse_RU.py (samhorsfield96/adaptive_sampling_scripts).
Python dicts are modelled as insertion-ordered association lists, Python float
division as division on the rationals, and the ZeroDivisionError that integer
division by zero raises as an Option-valued failure (none).
-/

/-- Association list lookup, mirroring Python dict access (first matching key). -/
def alook {α : Type} : List (String × α) → String → Option α
  | [], _ => none
  | (k, v) :: rest, key => if k = key then some v else alook rest key

/-- Association list update of the first entry carrying the given key,
mirroring Python dict item assignment for an existing key. -/
def aupd {α : Type} : List (String × α) → String → (α → α) → List (String × α)
  | [], _, _ => []
  | (k, v) :: rest, key, f =>
      if k = key then (k, f v) :: rest else (k, v) :: aupd rest key f

/-- One alignment hit returned by the external aligner (mappy), with the
fields read by analyse_RU.py: contig name, reference start and end, and
number of matching bases. -/
structure Hit where
  ctg : String
  r_st : Int
  r_en : Int
  mlen : Nat
deriving DecidableEq

/-- Loop state of the best-alignment scan in analyse_RU.py main
(variables match_len, ref_align, perc_id, align_count). -/
structure SelState where
  match_len : Nat
  ref_align : String
  perc_id : ℚ
  align_count : Nat
deriving DecidableEq

/-- Initial loop state: match_len 0, ref_align "unaligned", perc_id 0. -/
def initSel : SelState := ⟨0, "unaligned", 0, 0⟩

/-- One iteration of the hit loop (analyse_RU.py lines 243-260): the hit
counter always advances; when the restricted target set is present a hit on a
foreign contig is otherwise skipped; a hit with strictly larger mlen replaces
the best and perc_id is recomputed as mlen over the reference span, which in
the source raises ZeroDivisionError (here none) when the span is zero. -/
def selStep (mm_target : Option (List String)) (s0 : SelState) (r : Hit) : Option SelState :=
  let s : SelState := { s0 with align_count := s0.align_count + 1 }
  let len_ref_map : Nat := (r.r_en - r.r_st).natAbs
  let upd : Option SelState :=
    if s.match_len < r.mlen then
      if len_ref_map = 0 then none
      else some { s with match_len := r.mlen, ref_align := r.ctg,
                         perc_id := (r.mlen : ℚ) / (len_ref_map : ℚ) }
    else some s
  match mm_target with
  | none => upd
  | some tgt => if r.ctg ∈ tgt then upd else some s

/-- The hit loop run from a given state; a raising iteration aborts the scan. -/
def selLoopFrom (mm_target : Option (List String)) : SelState → List Hit → Option SelState
  | s, [] => some s
  | s, r :: rest =>
      match selStep mm_target s r with
      | none => none
      | some s1 => selLoopFrom mm_target s1 rest

/-- The hit loop from the initial state. -/
def selLoop (mm_target : Option (List String)) (hits : List Hit) : Option SelState :=
  selLoopFrom mm_target initSel hits

/-- Full best-alignment selection for one read (loop plus the post-loop
overrides of analyse_RU.py lines 262-272): below-cutoff coverage forces
"unaligned", the multi-mapping rule forces "unaligned" when more than one hit
was counted, and an unaligned read reports its full length as match_len.
Returns (ref_align, match_len, perc_id), or none when the loop raised. -/
def select (hits : List Hit) (total_length : Nat) (matching_prop : ℚ)
    (mm_target : Option (List String)) (remove_multi : Bool) :
    Option (String × Nat × ℚ) :=
  match selLoop mm_target hits with
  | none => none
  | some s =>
      let ref_align := if s.perc_id < matching_prop then "unaligned" else s.ref_align
      let ref_align := if remove_multi ∧ 1 < s.align_count then "unaligned" else ref_align
      let match_len := if ref_align = "unaligned" then total_length else s.match_len
      some (ref_align, match_len, s.perc_id)

/-- Channel classification (analyse_RU.py lines 221-229): the source asserts
0 <= channel <= 512 (a violated assert aborts, modelled as none) and then
marks the read as target iff min_channel <= channel <= max_channel. -/
def classifyChannel (channel min_channel max_channel : Int) : Option Bool :=
  if 0 ≤ channel ∧ channel ≤ 512 then
    some (decide (min_channel ≤ channel ∧ channel ≤ max_channel))
  else none

/-- Per-contig counter bucket of results_dict[barcode]["ref_dict"][ref]. -/
structure ContigBucket where
  target_channel_bases : Nat
  non_target_channel_bases : Nat
  target_channel_reads : Nat
  non_target_channel_reads : Nat
deriving DecidableEq

/-- Freshly created contig bucket (analyse_RU.py lines 291-295). -/
def zeroBucket : ContigBucket := ⟨0, 0, 0, 0⟩

/-- Per-barcode counters of results_dict[barcode] (lines 195-206). -/
structure BarcodeCounters where
  target_channel_bases : Nat
  non_target_channel_bases : Nat
  target_channel_reads : Nat
  non_target_channel_reads : Nat
  target_channel_bases_mapped : Nat
  non_target_channel_bases_mapped : Nat
  target_channel_reads_mapped : Nat
  non_target_channel_reads_mapped : Nat
  total_bases : Nat
  total_reads : Nat
  ref_dict : List (String × ContigBucket)
deriving DecidableEq

/-- Freshly created barcode counters, all zero with an empty contig table. -/
def initCounters : BarcodeCounters := ⟨0, 0, 0, 0, 0, 0, 0, 0, 0, 0, []⟩

/-- One classified read observation as consumed by the aggregation code:
barcode, target-channel flag, chosen contig (or "unaligned"), matched length
and total read length. -/
structure Obs where
  barcode : String
  target : Bool
  ref_align : String
  match_len : Nat
  total_length : Nat
deriving DecidableEq

/-- Contig bucket increment for one read (lines 300-301 and 308-309). -/
def bumpBucket (o : Obs) (b : ContigBucket) : ContigBucket :=
  if o.target then
    { b with target_channel_bases := b.target_channel_bases + o.match_len,
             target_channel_reads := b.target_channel_reads + 1 }
  else
    { b with non_target_channel_bases := b.non_target_channel_bases + o.match_len,
             non_target_channel_reads := b.non_target_channel_reads + 1 }

/-- Aggregation of one observation into one barcode's counters
(analyse_RU.py lines 291-315): lazy bucket creation, channel-side totals on
the full read length, bucket and mapped counters on the matched length, with
mapped counters skipped for "unaligned". -/
def update (c : BarcodeCounters) (o : Obs) : BarcodeCounters :=
  let rd := if (alook c.ref_dict o.ref_align).isSome then c.ref_dict
            else c.ref_dict ++ [(o.ref_align, zeroBucket)]
  let rd := aupd rd o.ref_align (bumpBucket o)
  if o.target then
    { c with
        ref_dict := rd,
        target_channel_bases := c.target_channel_bases + o.total_length,
        target_channel_reads := c.target_channel_reads + 1,
        target_channel_bases_mapped :=
          if o.ref_align = "unaligned" then c.target_channel_bases_mapped
          else c.target_channel_bases_mapped + o.match_len,
        target_channel_reads_mapped :=
          if o.ref_align = "unaligned" then c.target_channel_reads_mapped
          else c.target_channel_reads_mapped + 1,
        total_bases := c.total_bases + o.total_length,
        total_reads := c.total_reads + 1 }
  else
    { c with
        ref_dict := rd,
        non_target_channel_bases := c.non_target_channel_bases + o.total_length,
        non_target_channel_reads := c.non_target_channel_reads + 1,
        non_target_channel_bases_mapped :=
          if o.ref_align = "unaligned" then c.non_target_channel_bases_mapped
          else c.non_target_channel_bases_mapped + o.match_len,
        non_target_channel_reads_mapped :=
          if o.ref_align = "unaligned" then c.non_target_channel_reads_mapped
          else c.non_target_channel_reads_mapped + 1,
        total_bases := c.total_bases + o.total_length,
        total_reads := c.total_reads + 1 }

/-- Aggregation of one observation into the whole results table: the barcode
entry is created lazily (lines 195-206) and then updated. -/
def updateAll (m : List (String × BarcodeCounters)) (o : Obs) : List (String × BarcodeCounters) :=
  let m := if (alook m o.barcode).isSome then m else m ++ [(o.barcode, initCounters)]
  aupd m o.barcode (fun c => update c o)

/-- One (ref_align, match_len, total_length) tuple of read_lens, the per-read
data consumed by the bootstrap (lines 276-278). -/
structure BootRead where
  align : String
  match_len : Nat
  read_len : Nat
deriving DecidableEq

/-- State of one bootstrap iteration: adaptive_num_bases, control_num_bases,
adaptive_total_bases, control_total_bases (lines 328-334). -/
structure BootState where
  anb : List (String × Nat)
  cnb : List (String × Nat)
  a_total : Nat
  c_total : Nat
deriving DecidableEq

/-- Empty bootstrap iteration state. -/
def initBoot : BootState := ⟨[], [], 0, 0⟩

/-- Lazy creation of a contig key in both base maps, keyed on membership in
adaptive_num_bases (lines 338-340 and 346-348). -/
def ensureBoth (st : BootState) (k : String) : BootState :=
  if (alook st.anb k).isSome then st
  else { st with anb := st.anb ++ [(k, 0)], cnb := st.cnb ++ [(k, 0)] }

/-- Accumulation of one resampled adaptive read (lines 336-342). -/
def addAdaptive (st : BootState) (r : BootRead) : BootState :=
  let st := ensureBoth st r.align
  { st with anb := aupd st.anb r.align (fun v => v + r.match_len),
            a_total := st.a_total + r.read_len }

/-- Accumulation of one resampled control read (lines 344-350). -/
def addControl (st : BootState) (r : BootRead) : BootState :=
  let st := ensureBoth st r.align
  { st with cnb := aupd st.cnb r.align (fun v => v + r.match_len),
            c_total := st.c_total + r.read_len }

/-- The floor-to-one guard applied to zero denominators and numerators. -/
def fN (n : Nat) : Nat := if n = 0 then 1 else n

/-- Enrichment value appended for one contig key of adaptive_num_bases
(lines 352-369): zero when the adaptive total is zero, otherwise the ratio of
base proportions with the control numerator and total floored to 1. -/
def enrichOf (st : BootState) (k : String) (ab : Nat) : ℚ :=
  let cb := fN ((alook st.cnb k).getD 0)
  let ct := fN st.c_total
  if st.a_total = 0 then 0
  else ((ab : ℚ) / (st.a_total : ℚ)) / ((cb : ℚ) / (ct : ℚ))

/-- One full bootstrap iteration on the two drawn samples: accumulate the
adaptive sample, then the control sample, then emit one enrichment value per
key of adaptive_num_bases in insertion order. -/
def bootstrapIter (adaptive_sample control_sample : List BootRead) : List (String × ℚ) :=
  let st := control_sample.foldl addControl (adaptive_sample.foldl addAdaptive initBoot)
  st.anb.map (fun p => (p.1, enrichOf st p.1 p.2))

/-- Entry of enrichment_dict[barcode][ref]: the two optional keys
"Target_prop_bases" and "Nontarget_bases_mapped". -/
structure EnrichEntry where
  tpb : Option ℚ
  nbm : Option Nat
deriving DecidableEq

/-- Target_prop_bases value (lines 400-403): zero when the barcode-level
target base total is zero. -/
def tpbVal (tt tb : Nat) : ℚ := if tt = 0 then 0 else (tb : ℚ) / (tt : ℚ)

/-- Python item assignment creating or replacing a dict entry. -/
def dinsert (d : List (String × EnrichEntry)) (k : String) (e : EnrichEntry) :
    List (String × EnrichEntry) :=
  if (alook d k).isSome then aupd d k (fun _ => e) else d ++ [(k, e)]

/-- Target summary loop body for one ref (lines 394-403): the entry is
replaced by a fresh dict holding only Target_prop_bases. -/
def tgtStep (tt : Nat) (d : List (String × EnrichEntry)) (p : String × ContigBucket) :
    List (String × EnrichEntry) :=
  dinsert d p.1 ⟨some (tpbVal tt p.2.target_channel_bases), none⟩

/-- Non-target summary loop body for one ref (lines 429-436): lazy entry
creation followed by assignment of Nontarget_bases_mapped. -/
def ntgStep (d : List (String × EnrichEntry)) (p : String × ContigBucket) :
    List (String × EnrichEntry) :=
  let d := if (alook d p.1).isSome then d else d ++ [(p.1, ⟨none, none⟩)]
  aupd d p.1 (fun e => ⟨e.tpb, some p.2.non_target_channel_bases⟩)

/-- Point-estimate emission loop body (lines 448-458): a line is produced only
when both dict keys are present; the contig's non-target bases and the
barcode-level non-target base total are floored to 1, and the floored total is
written back (threaded to later refs). -/
def emitStep (acc : List (String × ℚ) × Nat) (p : String × EnrichEntry) :
    List (String × ℚ) × Nat :=
  match p.2.nbm, p.2.tpb with
  | some nbm, some tpb =>
      let nbm := fN nbm
      let nt := fN acc.2
      (acc.1 ++ [(p.1, tpb / ((nbm : ℚ) / (nt : ℚ)))], nt)
  | _, _ => acc

/-- Point-estimate enrichment lines for one barcode, from its contig table,
its target-channel base total and its non-target-channel base total. -/
def pointEnrichment (refs : List (String × ContigBucket)) (tt nt : Nat) :
    List (String × ℚ) :=
  let d1 := refs.foldl (tgtStep tt) []
  let d2 := refs.foldl ntgStep d1
  (d2.foldl emitStep ([], nt)).1

/-- Target-channel predicate on observations. -/
def fTgt (o : Obs) : Bool := o.target

/-- Non-target-channel predicate on observations. -/
def fNtg (o : Obs) : Bool := !o.target

/-- Target-and-mapped predicate on observations. -/
def fTgtM (o : Obs) : Bool := o.target && !(o.ref_align == "unaligned")

/-- Non-target-and-mapped predicate on observations. -/
def fNtgM (o : Obs) : Bool := (!o.target) && !(o.ref_align == "unaligned")

/-- Trivially true predicate on observations. -/
def fAll (_ : Obs) : Bool := true

/-- Target-channel reads on a given contig. -/
def obsTgtOn (k : String) (o : Obs) : Bool := o.target && (o.ref_align == k)

/-- Non-target-channel reads on a given contig. -/
def obsNtgOn (k : String) (o : Obs) : Bool := (!o.target) && (o.ref_align == k)

/-- Reads on a given contig. -/
def obsOn (k : String) (o : Obs) : Bool := o.ref_align == k

/-- Reads of a given barcode. -/
def obsBc (bc : String) (o : Obs) : Bool := o.barcode == bc

/-- Sum of total lengths over the observations satisfying a predicate. -/
def sumTL (l : List Obs) (p : Obs → Bool) : Nat := ((l.filter p).map Obs.total_length).sum

/-- Sum of matched lengths over the observations satisfying a predicate. -/
def sumML (l : List Obs) (p : Obs → Bool) : Nat := ((l.filter p).map Obs.match_len).sum

/-- Number of observations satisfying a predicate. -/
def cntF (l : List Obs) (p : Obs → Bool) : Nat := (l.filter p).length

/-- The contribution of a list of observations to one contig bucket. -/
def bucketContrib (l : List Obs) (k : String) (b : ContigBucket) : ContigBucket :=
  ⟨b.target_channel_bases + sumML l (obsTgtOn k),
   b.non_target_channel_bases + sumML l (obsNtgOn k),
   b.target_channel_reads + cntF l (obsTgtOn k),
   b.non_target_channel_reads + cntF l (obsNtgOn k)⟩

/-- Target-channel read count of a contig bucket. -/
def projTR (b : ContigBucket) : Nat := b.target_channel_reads

/-- Non-target-channel read count of a contig bucket. -/
def projNTR (b : ContigBucket) : Nat := b.non_target_channel_reads

/-- Equality of barcode counters in the sense of Python dict equality: all
scalar counters agree and the contig tables agree as key-value maps. -/
def countersEquiv (c₁ c₂ : BarcodeCounters) : Prop :=
  c₁.target_channel_bases = c₂.target_channel_bases ∧
  c₁.non_target_channel_bases = c₂.non_target_channel_bases ∧
  c₁.target_channel_reads = c₂.target_channel_reads ∧
  c₁.non_target_channel_reads = c₂.non_target_channel_reads ∧
  c₁.target_channel_bases_mapped = c₂.target_channel_bases_mapped ∧
  c₁.non_target_channel_bases_mapped = c₂.non_target_channel_bases_mapped ∧
  c₁.target_channel_reads_mapped = c₂.target_channel_reads_mapped ∧
  c₁.non_target_channel_reads_mapped = c₂.non_target_channel_reads_mapped ∧
  c₁.total_bases = c₂.total_bases ∧
  c₁.total_reads = c₂.total_reads ∧
  ∀ k, alook c₁.ref_dict k = alook c₂.ref_dict k

/-- Equality of whole results tables in the sense of Python dict equality. -/
def resultsEquiv (m₁ m₂ : List (String × BarcodeCounters)) : Prop :=
  ∀ bc, (alook m₁ bc = none ∧ alook m₂ bc = none) ∨
    (∃ c₁ c₂, alook m₁ bc = some c₁ ∧ alook m₂ bc = some c₂ ∧ countersEquiv c₁ c₂)

/-- Matched bases of a list of bootstrap reads on a given contig. -/
def aBases (l : List BootRead) (k : String) : Nat :=
  ((l.filter (fun r => r.align == k)).map BootRead.match_len).sum

/-- Total read length of a list of bootstrap reads. -/
def aTotal (l : List BootRead) : Nat := (l.map BootRead.read_len).sum

/-- Unfolding of one unrestricted selector step into its three outcomes. -/
theorem selStep_none_eq (s0 : SelState) (r : Hit) :
    selStep none s0 r =
      if s0.match_len < r.mlen then
        (if (r.r_en - r.r_st).natAbs = 0 then none
         else some ⟨r.mlen, r.ctg, (r.mlen : ℚ) / (((r.r_en - r.r_st).natAbs : ℕ) : ℚ),
                    s0.align_count + 1⟩)
      else some ⟨s0.match_len, s0.ref_align, s0.perc_id, s0.align_count + 1⟩ := rfl

/-- Every selector step that completes advances the hit counter by one,
whether or not the hit passed the restricted-target filter. -/
theorem selStep_count (mm : Option (List String)) (s0 : SelState) (r : Hit) (s1 : SelState)
    (h : selStep mm s0 r = some s1) : s1.align_count = s0.align_count + 1 := by
  cases mm with
  | none =>
      simp only [selStep] at h
      by_cases h1 : s0.match_len < r.mlen
      · by_cases h2 : (r.r_en - r.r_st).natAbs = 0
        · simp [h1, h2] at h
        · simp [h1, h2] at h
          rw [← h]
      · simp [h1] at h
        rw [← h]
  | some tgt =>
      simp only [selStep] at h
      by_cases h0 : r.ctg ∈ tgt
      · by_cases h1 : s0.match_len < r.mlen
        · by_cases h2 : (r.r_en - r.r_st).natAbs = 0
          · simp [h0, h1, h2] at h
          · simp [h0, h1, h2] at h
            rw [← h]
        · simp [h0, h1] at h
          rw [← h]
      · simp [h0] at h
        rw [← h]

/-- A completing unrestricted step either replaces the best hit (iff the
candidate's matched length is strictly greater) or leaves everything but the
hit counter unchanged. -/
theorem selStep_none_some (s0 : SelState) (r : Hit) (s1 : SelState)
    (h : selStep none s0 r = some s1) :
    (s0.match_len < r.mlen →
      (r.r_en - r.r_st).natAbs ≠ 0 ∧
      s1 = ⟨r.mlen, r.ctg, (r.mlen : ℚ) / (((r.r_en - r.r_st).natAbs : ℕ) : ℚ),
            s0.align_count + 1⟩) ∧
    (¬ s0.match_len < r.mlen →
      s1 = ⟨s0.match_len, s0.ref_align, s0.perc_id, s0.align_count + 1⟩) := by
  rw [selStep_none_eq] at h
  by_cases h1 : s0.match_len < r.mlen
  · by_cases h2 : (r.r_en - r.r_st).natAbs = 0
    · simp [h1, h2] at h
    · simp only [h1, if_true, h2, if_false, Option.some.injEq, if_pos h1, if_neg h2] at h
      exact ⟨fun _ => ⟨h2, h.symm⟩, fun hc => absurd h1 hc⟩
  · simp only [if_neg h1, Option.some.injEq] at h
    exact ⟨fun hc => absurd hc h1, fun _ => h.symm⟩

/-- Characterisation of the unrestricted hit loop from an arbitrary state:
the counter counts every hit, the running best never decreases and dominates
every hit, and the final best either is the starting one or comes from the
earliest hit attaining the final matched length, with coverage recomputed
from that hit. -/
theorem selLoopFrom_none_char (hits : List Hit) : ∀ (s0 s : SelState),
    selLoopFrom none s0 hits = some s →
    s.align_count = s0.align_count + hits.length ∧
    s0.match_len ≤ s.match_len ∧
    (∀ r ∈ hits, r.mlen ≤ s.match_len) ∧
    ((s.match_len = s0.match_len ∧ s.ref_align = s0.ref_align ∧ s.perc_id = s0.perc_id) ∨
      (∃ l₁ r l₂, hits = l₁ ++ r :: l₂ ∧ s0.match_len < r.mlen ∧ r.mlen = s.match_len ∧
        s.ref_align = r.ctg ∧
        s.perc_id = (r.mlen : ℚ) / (((r.r_en - r.r_st).natAbs : ℕ) : ℚ) ∧
        ∀ r' ∈ l₁, r'.mlen < r.mlen)) := by
  induction hits with
  | nil =>
      intro s0 s h
      simp only [selLoopFrom, Option.some.injEq] at h
      subst h
      simp
  | cons r rest ih =>
      intro s0 s h
      cases e : selStep none s0 r with
      | none =>
          simp only [selLoopFrom, e] at h
          exact Option.noConfusion h
      | some s1 =>
          simp only [selLoopFrom, e] at h
          obtain ⟨hc, hle, hall, hdisj⟩ := ih s1 s h
          obtain ⟨hA, hB⟩ := selStep_none_some s0 r s1 e
          by_cases h1 : s0.match_len < r.mlen
          · obtain ⟨hspan, hs1⟩ := hA h1
            subst hs1
            simp only at hc hle hall hdisj
            refine ⟨by simp [hc]; omega, le_of_lt (lt_of_lt_of_le h1 hle), ?_, ?_⟩
            · intro x hx
              rcases List.mem_cons.mp hx with hx | hx
              · subst hx; exact hle
              · exact hall x hx
            · rcases hdisj with ⟨hm, hr, hp⟩ | ⟨l₁, r', l₂, hsplit, hlt, hm, hr, hp, hfirst⟩
              · exact Or.inr ⟨[], r, rest, rfl, h1, hm.symm, hr, hp, by simp⟩
              · refine Or.inr ⟨r :: l₁, r', l₂, by simp [hsplit], lt_trans h1 hlt, hm, hr, hp, ?_⟩
                intro x hx
                rcases List.mem_cons.mp hx with hx | hx
                · subst hx; exact hlt
                · exact hfirst x hx
          · have hs1 := hB h1
            subst hs1
            simp only at hc hle hall hdisj
            have hrle : r.mlen ≤ s0.match_len := Nat.not_lt.mp h1
            refine ⟨by simp [hc]; omega, hle, ?_, ?_⟩
            · intro x hx
              rcases List.mem_cons.mp hx with hx | hx
              · subst hx; exact le_trans hrle hle
              · exact hall x hx
            · rcases hdisj with ⟨hm, hr, hp⟩ | ⟨l₁, r', l₂, hsplit, hlt, hm, hr, hp, hfirst⟩
              · exact Or.inl ⟨hm, hr, hp⟩
              · refine Or.inr ⟨r :: l₁, r', l₂, by simp [hsplit], hlt, hm, hr, hp, ?_⟩
                intro x hx
                rcases List.mem_cons.mp hx with hx | hx
                · subst hx; exact lt_of_le_of_lt hrle hlt
                · exact hfirst x hx

/-- C1 counterexample: a hit whose reference span is zero and whose matched
length exceeds the running best makes the scan raise ZeroDivisionError
(modelled as none), so selection does not complete — refuting the claim that
a zero-span hit never causes a failure. -/
theorem c1_counterexample :
    select [⟨"X", 5, 5, 3⟩] 10 ((4 : ℚ) / 5) none false = none := by decide

/-- C1 (amended): a zero-span hit whose matched length does not exceed the
running best is skipped without failure (only the hit counter advances, the
hit never becomes best and coverage is untouched), while a zero-span hit
whose matched length exceeds the running best makes the scan fail with a
division by zero. -/
theorem c1_thm (s : SelState) (r : Hit) (h : r.r_en = r.r_st) :
    (r.mlen ≤ s.match_len →
      selStep none s r = some { s with align_count := s.align_count + 1 }) ∧
    (s.match_len < r.mlen → selStep none s r = none) := by
  constructor
  · intro hle
    rw [selStep_none_eq, if_neg (Nat.not_lt.mpr hle)]
  · intro hlt
    rw [selStep_none_eq, if_pos hlt, if_pos (by simp [h])]

/-- C1 witness: the amended theorem applied to a concrete zero-span hit with
matched length zero against the initial state. -/
theorem c1_witness :
    selStep none initSel ⟨"X", 7, 7, 0⟩ =
      some { initSel with align_count := initSel.align_count + 1 } :=
  (c1_thm initSel ⟨"X", 7, 7, 0⟩ rfl).1 (by decide)

/-- Concrete evaluation: the first hit passes the restricted-target filter
and becomes best. -/
theorem c2_eval_step1 : selStep (some ["X"]) initSel ⟨"X", 0, 10, 8⟩ =
    some ⟨8, "X", (8 : ℚ) / 10, 1⟩ := by
  norm_num [selStep, initSel]

/-- Concrete evaluation: the second hit fails the restricted-target filter,
yet still advances the hit counter. -/
theorem c2_eval_step2 : selStep (some ["X"]) ⟨8, "X", (8 : ℚ) / 10, 1⟩ ⟨"Y", 0, 10, 9⟩ =
    some ⟨8, "X", (8 : ℚ) / 10, 2⟩ := by
  norm_num [selStep]
  decide

/-- Concrete evaluation of the restricted two-hit scan. -/
theorem c2_eval_loop : selLoop (some ["X"]) [⟨"X", 0, 10, 8⟩, ⟨"Y", 0, 10, 9⟩] =
    some ⟨8, "X", (8 : ℚ) / 10, 2⟩ := by
  simp only [selLoop, selLoopFrom, c2_eval_step1, c2_eval_step2]

/-- Concrete evaluation of the full selection under multi-mapping rejection. -/
theorem c2_eval_select :
    select [⟨"X", 0, 10, 8⟩, ⟨"Y", 0, 10, 9⟩] 100 ((1 : ℚ) / 2) (some ["X"]) true =
      some ("unaligned", 100, (4 : ℚ) / 5) := by
  simp only [select, c2_eval_loop]
  norm_num

/-- C2 counterexample: with restricted targets containing only "X" and
multi-mapping rejection on, two hits of which only the first passes the
filter still drive the hit counter to 2, so the read is forced to
"unaligned" — refuting the claim that filtered-out hits do not count toward
the multi-mapping count. -/
theorem c2_counterexample :
    select [⟨"X", 0, 10, 8⟩, ⟨"Y", 0, 10, 9⟩] 100 ((1 : ℚ) / 2) (some ["X"]) true =
      some ("unaligned", 100, (4 : ℚ) / 5) := c2_eval_select

/-- C2 (amended): every hit counts toward the multi-mapping count, whether or
not it passes the restricted-target filter, and with rejection enabled any
read with more than one hit — even if exactly one hit passes the filter — is
forced to "unaligned". -/
theorem c2_thm :
    (∀ (mm : Option (List String)) (hits : List Hit) (s0 s : SelState),
        selLoopFrom mm s0 hits = some s →
        s.align_count = s0.align_count + hits.length) ∧
    (∀ (hits : List Hit) (tl : Nat) (mp : ℚ) (mm : Option (List String))
        (out : String × Nat × ℚ),
        1 < hits.length → select hits tl mp mm true = some out →
        out.1 = "unaligned") := by
  have hcount : ∀ (mm : Option (List String)) (hits : List Hit) (s0 s : SelState),
      selLoopFrom mm s0 hits = some s → s.align_count = s0.align_count + hits.length := by
    intro mm hits
    induction hits with
    | nil =>
        intro s0 s h
        simp only [selLoopFrom, Option.some.injEq] at h
        subst h
        simp
    | cons r rest ih =>
        intro s0 s h
        cases e : selStep mm s0 r with
        | none =>
            simp only [selLoopFrom, e] at h
            exact Option.noConfusion h
        | some s1 =>
            simp only [selLoopFrom, e] at h
            have := ih s1 s h
            have h1 := selStep_count mm s0 r s1 e
            simp only [List.length_cons, this, h1]
            omega
  refine ⟨hcount, ?_⟩
  intro hits tl mp mm out hlen h
  cases e : selLoop mm hits with
  | none =>
      simp only [select, e] at h
      exact Option.noConfusion h
  | some s =>
      simp only [select, e, Option.some.injEq] at h
      have := hcount mm hits initSel s e
      have hgt : 1 < s.align_count := by
        simp only [initSel] at this
        omega
      rw [← h]
      simp [hgt]

/-- C2 witness: the amended theorem applied to the concrete two-hit read of
the counterexample, one hit passing the filter and one failing it. -/
theorem c2_witness :
    select [⟨"X", 0, 10, 8⟩, ⟨"Y", 0, 10, 9⟩] 100 ((1 : ℚ) / 2) (some ["X"]) true =
      some ("unaligned", 100, (4 : ℚ) / 5) ∧
    (("unaligned", 100, (4 : ℚ) / 5) : String × Nat × ℚ).1 = "unaligned" :=
  ⟨c2_eval_select,
   c2_thm.2 [⟨"X", 0, 10, 8⟩, ⟨"Y", 0, 10, 9⟩] 100 ((1 : ℚ) / 2) (some ["X"])
     ("unaligned", 100, (4 : ℚ) / 5) (by decide) c2_eval_select⟩

/-- C7: the unrestricted selector replaces the current best iff the
candidate's matched length is strictly greater (recomputing coverage from the
new best each time it changes), so a completed scan ends either with no best
hit (all matched lengths were zero, contig stays "unaligned" with coverage 0)
or with the earliest-seen hit attaining the maximal matched length, whose
contig and matched-length-over-span coverage are reported. -/
theorem c7_thm (hits : List Hit) (s : SelState) (h : selLoop none hits = some s) :
    (∀ (s0 : SelState) (r : Hit) (s1 : SelState), selStep none s0 r = some s1 →
        (s0.match_len < r.mlen →
          s1.match_len = r.mlen ∧ s1.ref_align = r.ctg ∧
          s1.perc_id = (r.mlen : ℚ) / (((r.r_en - r.r_st).natAbs : ℕ) : ℚ)) ∧
        (¬ s0.match_len < r.mlen →
          s1.match_len = s0.match_len ∧ s1.ref_align = s0.ref_align ∧
          s1.perc_id = s0.perc_id)) ∧
    (∀ r ∈ hits, r.mlen ≤ s.match_len) ∧
    (s.match_len = 0 → s.ref_align = "unaligned" ∧ s.perc_id = 0) ∧
    (0 < s.match_len → ∃ l₁ r l₂, hits = l₁ ++ r :: l₂ ∧ r.mlen = s.match_len ∧
        s.ref_align = r.ctg ∧
        s.perc_id = (r.mlen : ℚ) / (((r.r_en - r.r_st).natAbs : ℕ) : ℚ) ∧
        ∀ r' ∈ l₁, r'.mlen < r.mlen) := by
  obtain ⟨-, -, hall, hdisj⟩ := selLoopFrom_none_char hits initSel s h
  refine ⟨?_, hall, ?_, ?_⟩
  · intro s0 r s1 hstep
    obtain ⟨hA, hB⟩ := selStep_none_some s0 r s1 hstep
    constructor
    · intro h1
      obtain ⟨-, hs1⟩ := hA h1
      subst hs1
      exact ⟨rfl, rfl, rfl⟩
    · intro h1
      have hs1 := hB h1
      subst hs1
      exact ⟨rfl, rfl, rfl⟩
  · intro hz
    rcases hdisj with ⟨hm, hr, hp⟩ | ⟨l₁, r, l₂, hsplit, hlt, hm, hr, hp, hfirst⟩
    · exact ⟨hr, hp⟩
    · exfalso
      rw [hz] at hm
      simp only [initSel] at hlt
      omega
  · intro hz
    rcases hdisj with ⟨hm, hr, hp⟩ | ⟨l₁, r, l₂, hsplit, hlt, hm, hr, hp, hfirst⟩
    · exfalso
      simp only [initSel] at hm
      omega
    · exact ⟨l₁, r, l₂, hsplit, hm, hr, hp, hfirst⟩

/-- C7 witness: the theorem applied to a concrete completed scan whose single
hit has matched length zero, extracting the no-best-hit conclusion. -/
theorem c7_witness :
    selLoop none [⟨"A", 0, 10, 0⟩] = some ⟨0, "unaligned", 0, 1⟩ ∧
    ((⟨0, "unaligned", 0, 1⟩ : SelState).ref_align = "unaligned" ∧
     (⟨0, "unaligned", 0, 1⟩ : SelState).perc_id = 0) :=
  ⟨by decide,
   (c7_thm [⟨"A", 0, 10, 0⟩] ⟨0, "unaligned", 0, 1⟩ (by decide)).2.2.1 (by decide)⟩

/-- C6 counterexample: channel 0 is outside [1, 512], yet the code's assert
(channel >= 0 and channel <= 512) accepts it and classification completes —
refuting the claim that classification fails exactly outside [1, 512]. -/
theorem c6_counterexample : classifyChannel 0 1 256 = some false := by decide

/-- C6 (amended): channel classification fails exactly when the channel is
outside [0, 512] (channel 0 is accepted, not rejected), and otherwise a read
is classified as target iff min_channel <= channel <= max_channel. -/
theorem c6_thm (ch mn mx : Int) :
    (classifyChannel ch mn mx = none ↔ (ch < 0 ∨ 512 < ch)) ∧
    (0 ≤ ch → ch ≤ 512 →
      classifyChannel ch mn mx = some (decide (mn ≤ ch ∧ ch ≤ mx))) := by
  constructor
  · constructor
    · intro h
      by_cases hc : 0 ≤ ch ∧ ch ≤ 512
      · simp [classifyChannel, hc] at h
      · omega
    · intro h
      have hc : ¬ (0 ≤ ch ∧ ch ≤ 512) := by omega
      simp [classifyChannel, hc]
  · intro h1 h2
    simp [classifyChannel, h1, h2]

/-- C6 witness: the amended theorem applied to channel 300 with range 1-256,
a non-target classification that completes. -/
theorem c6_witness :
    classifyChannel 300 1 256 = some (decide ((1 : Int) ≤ 300 ∧ (300 : Int) ≤ 256)) :=
  (c6_thm 300 1 256).2 (by decide) (by decide)

/-- A key found in the left part of an appended list is found in the whole. -/
theorem alook_append_some {α : Type} (d e : List (String × α)) (k : String) (v : α)
    (h : alook d k = some v) : alook (d ++ e) k = some v := by
  induction d with
  | nil => simp [alook] at h
  | cons p rest ih =>
      obtain ⟨k1, w⟩ := p
      by_cases hk : k1 = k
      · simpa [alook, hk] using h
      · simp only [alook, if_neg hk] at h
        simpa [alook, hk] using ih h

/-- A key absent from the left part of an appended list is looked up in the
right part. -/
theorem alook_append_none {α : Type} (d e : List (String × α)) (k : String)
    (h : alook d k = none) : alook (d ++ e) k = alook e k := by
  induction d with
  | nil => simp
  | cons p rest ih =>
      obtain ⟨k1, w⟩ := p
      by_cases hk : k1 = k
      · simp [alook, hk] at h
      · simp only [alook, if_neg hk] at h
        simpa [alook, hk] using ih h

/-- Appending a fresh key makes it found with the appended value. -/
theorem alook_append_single_self {α : Type} (d : List (String × α)) (k : String) (v : α)
    (h : alook d k = none) : alook (d ++ [(k, v)]) k = some v := by
  rw [alook_append_none d _ k h]
  simp [alook]

/-- Appending an entry for a different key does not change a lookup. -/
theorem alook_append_single_ne {α : Type} (d : List (String × α)) (k k2 : String) (v : α)
    (h : k2 ≠ k) : alook (d ++ [(k, v)]) k2 = alook d k2 := by
  cases e : alook d k2 with
  | some w => exact alook_append_some d _ k2 w e
  | none =>
      rw [alook_append_none d _ k2 e]
      simp [alook, Ne.symm h, e]

/-- Updating a key maps its looked-up value. -/
theorem alook_aupd_self {α : Type} (d : List (String × α)) (k : String) (f : α → α) :
    alook (aupd d k f) k = (alook d k).map f := by
  induction d with
  | nil => rfl
  | cons p rest ih =>
      obtain ⟨k1, w⟩ := p
      by_cases hk : k1 = k
      · simp [aupd, alook, hk]
      · simp [aupd, alook, hk, ih]

/-- Updating one key leaves lookups of other keys unchanged. -/
theorem alook_aupd_ne {α : Type} (d : List (String × α)) (k k2 : String) (f : α → α)
    (h : k2 ≠ k) : alook (aupd d k f) k2 = alook d k2 := by
  induction d with
  | nil => rfl
  | cons p rest ih =>
      obtain ⟨k1, w⟩ := p
      by_cases hk : k1 = k
      · subst hk
        simp [aupd, alook, Ne.symm h]
      · simp [aupd, alook, hk, ih]

/-- Updating a key absent from the left part of an appended list happens in
the right part. -/
theorem aupd_append_of_none {α : Type} (d e : List (String × α)) (k : String) (f : α → α)
    (h : alook d k = none) : aupd (d ++ e) k f = d ++ aupd e k f := by
  induction d with
  | nil => rfl
  | cons p rest ih =>
      obtain ⟨k1, w⟩ := p
      by_cases hk : k1 = k
      · simp [alook, hk] at h
      · simp only [alook, if_neg hk] at h
        simp [aupd, hk, ih h]

/-- Lookup commutes with a key-preserving map over the entries. -/
theorem alook_map {α β : Type} (g : String → α → β) (d : List (String × α)) (k : String) :
    alook (d.map (fun p => (p.1, g p.1 p.2))) k = (alook d k).map (g k) := by
  induction d with
  | nil => rfl
  | cons p rest ih =>
      obtain ⟨k1, w⟩ := p
      by_cases hk : k1 = k
      · subst hk
        simp [alook]
      · simp [alook, hk, ih]

/-- Updating a present key changes a projected entry sum by exactly the
change of the projected value. -/
theorem sum_aupd {α : Type} (proj : α → Nat) (d : List (String × α)) (k : String)
    (f : α → α) (v : α) (h : alook d k = some v) :
    ((aupd d k f).map (fun p => proj p.2)).sum + proj v
      = (d.map (fun p => proj p.2)).sum + proj (f v) := by
  induction d with
  | nil => simp [alook] at h
  | cons p rest ih =>
      obtain ⟨k1, w⟩ := p
      by_cases hk : k1 = k
      · simp only [alook, if_pos hk, Option.some.injEq] at h
        subst h
        simp [aupd, hk]
        omega
      · simp only [alook, if_neg hk] at h
        simp only [aupd, if_neg hk, List.map_cons, List.sum_cons]
        have := ih h
        omega

/-- Appending an entry adds its projected value to a projected entry sum. -/
theorem sum_append_single {α : Type} (proj : α → Nat) (d : List (String × α)) (k : String)
    (v : α) :
    ((d ++ [(k, v)]).map (fun p => proj p.2)).sum = (d.map (fun p => proj p.2)).sum + proj v := by
  simp

/-- Head decomposition of a filtered total-length sum. -/
theorem sumTL_cons (o : Obs) (l : List Obs) (p : Obs → Bool) :
    sumTL (o :: l) p = (if p o then o.total_length else 0) + sumTL l p := by
  by_cases h : p o <;> simp [sumTL, List.filter_cons, h]

/-- Head decomposition of a filtered matched-length sum. -/
theorem sumML_cons (o : Obs) (l : List Obs) (p : Obs → Bool) :
    sumML (o :: l) p = (if p o then o.match_len else 0) + sumML l p := by
  by_cases h : p o <;> simp [sumML, List.filter_cons, h]

/-- Head decomposition of a filtered count. -/
theorem cntF_cons (o : Obs) (l : List Obs) (p : Obs → Bool) :
    cntF (o :: l) p = (if p o then 1 else 0) + cntF l p := by
  by_cases h : p o <;> simp [cntF, List.filter_cons, h]
  omega

/-- The scalar counter increments performed by one aggregation update. -/
theorem update_fields (c : BarcodeCounters) (o : Obs) :
    (update c o).target_channel_bases
      = c.target_channel_bases + (if fTgt o then o.total_length else 0) ∧
    (update c o).non_target_channel_bases
      = c.non_target_channel_bases + (if fNtg o then o.total_length else 0) ∧
    (update c o).target_channel_reads
      = c.target_channel_reads + (if fTgt o then 1 else 0) ∧
    (update c o).non_target_channel_reads
      = c.non_target_channel_reads + (if fNtg o then 1 else 0) ∧
    (update c o).target_channel_bases_mapped
      = c.target_channel_bases_mapped + (if fTgtM o then o.match_len else 0) ∧
    (update c o).non_target_channel_bases_mapped
      = c.non_target_channel_bases_mapped + (if fNtgM o then o.match_len else 0) ∧
    (update c o).target_channel_reads_mapped
      = c.target_channel_reads_mapped + (if fTgtM o then 1 else 0) ∧
    (update c o).non_target_channel_reads_mapped
      = c.non_target_channel_reads_mapped + (if fNtgM o then 1 else 0) ∧
    (update c o).total_bases = c.total_bases + o.total_length ∧
    (update c o).total_reads = c.total_reads + 1 := by
  cases ht : o.target <;> by_cases hu : o.ref_align = "unaligned" <;>
    simp [update, fTgt, fNtg, fTgtM, fNtgM, ht, hu]

/-- The contig table produced by one aggregation update: ensure the bucket,
then bump it. -/
theorem update_ref_dict (c : BarcodeCounters) (o : Obs) :
    (update c o).ref_dict =
      aupd (if (alook c.ref_dict o.ref_align).isSome then c.ref_dict
            else c.ref_dict ++ [(o.ref_align, zeroBucket)]) o.ref_align (bumpBucket o) := by
  cases ht : o.target <;> simp [update, ht]

/-- Scalar counter characterisation of a fold of aggregation updates: every
scalar field of the result is its starting value plus the corresponding
filtered sum or count over the observation list. -/
theorem update_foldl_scalars (l : List Obs) : ∀ c : BarcodeCounters,
    (l.foldl update c).target_channel_bases = c.target_channel_bases + sumTL l fTgt ∧
    (l.foldl update c).non_target_channel_bases = c.non_target_channel_bases + sumTL l fNtg ∧
    (l.foldl update c).target_channel_reads = c.target_channel_reads + cntF l fTgt ∧
    (l.foldl update c).non_target_channel_reads = c.non_target_channel_reads + cntF l fNtg ∧
    (l.foldl update c).target_channel_bases_mapped
      = c.target_channel_bases_mapped + sumML l fTgtM ∧
    (l.foldl update c).non_target_channel_bases_mapped
      = c.non_target_channel_bases_mapped + sumML l fNtgM ∧
    (l.foldl update c).target_channel_reads_mapped
      = c.target_channel_reads_mapped + cntF l fTgtM ∧
    (l.foldl update c).non_target_channel_reads_mapped
      = c.non_target_channel_reads_mapped + cntF l fNtgM ∧
    (l.foldl update c).total_bases = c.total_bases + sumTL l fAll ∧
    (l.foldl update c).total_reads = c.total_reads + l.length := by
  induction l with
  | nil => intro c; simp [sumTL, sumML, cntF]
  | cons o t ih =>
      intro c
      obtain ⟨h1, h2, h3, h4, h5, h6, h7, h8, h9, h10⟩ := ih (update c o)
      obtain ⟨f1, f2, f3, f4, f5, f6, f7, f8, f9, f10⟩ := update_fields c o
      simp only [List.foldl_cons, sumTL_cons, sumML_cons, cntF_cons, List.length_cons]
      exact ⟨by rw [h1, f1]; omega, by rw [h2, f2]; omega, by rw [h3, f3]; omega,
             by rw [h4, f4]; omega, by rw [h5, f5]; omega, by rw [h6, f6]; omega,
             by rw [h7, f7]; omega, by rw [h8, f8]; omega,
             by rw [h9, f9]; simp [fAll]; omega,
             by rw [h10, f10]; omega⟩

/-- The additivity invariant is preserved by any fold of aggregation
updates. -/
theorem c8_inv (l : List Obs) : ∀ c : BarcodeCounters,
    c.total_reads = c.target_channel_reads + c.non_target_channel_reads →
    c.total_bases = c.target_channel_bases + c.non_target_channel_bases →
    (l.foldl update c).total_reads
        = (l.foldl update c).target_channel_reads
          + (l.foldl update c).non_target_channel_reads ∧
    (l.foldl update c).total_bases
        = (l.foldl update c).target_channel_bases
          + (l.foldl update c).non_target_channel_bases := by
  induction l with
  | nil => intro c h1 h2; exact ⟨h1, h2⟩
  | cons o t ih =>
      intro c h1 h2
      simp only [List.foldl_cons]
      obtain ⟨f1, f2, f3, f4, -, -, -, -, f9, f10⟩ := update_fields c o
      refine ih (update c o) ?_ ?_ <;>
        cases ht : o.target <;>
          simp [fTgt, fNtg, ht] at f1 f2 f3 f4 <;> omega

/-- One aggregation step stores the updated counters under the observation's
barcode, starting from fresh counters when the barcode is new. -/
theorem alook_updateAll_self (m : List (String × BarcodeCounters)) (o : Obs) :
    alook (updateAll m o) o.barcode
      = some (update ((alook m o.barcode).getD initCounters) o) := by
  by_cases e : (alook m o.barcode).isSome
  · obtain ⟨c, hc⟩ := Option.isSome_iff_exists.mp e
    rw [show updateAll m o = aupd m o.barcode (fun c => update c o) from by
      simp [updateAll, e]]
    rw [alook_aupd_self, hc]
    simp
  · have hn : alook m o.barcode = none := Option.not_isSome_iff_eq_none.mp e
    rw [show updateAll m o
        = aupd (m ++ [(o.barcode, initCounters)]) o.barcode (fun c => update c o) from by
      simp [updateAll, e]]
    rw [alook_aupd_self, alook_append_single_self m _ _ hn, hn]
    simp

/-- One aggregation step leaves other barcodes' counters unchanged. -/
theorem alook_updateAll_ne (m : List (String × BarcodeCounters)) (o : Obs) (bc : String)
    (h : bc ≠ o.barcode) : alook (updateAll m o) bc = alook m bc := by
  by_cases e : (alook m o.barcode).isSome
  · rw [show updateAll m o = aupd m o.barcode (fun c => update c o) from by
      simp [updateAll, e]]
    exact alook_aupd_ne m o.barcode bc _ h
  · rw [show updateAll m o
        = aupd (m ++ [(o.barcode, initCounters)]) o.barcode (fun c => update c o) from by
      simp [updateAll, e]]
    rw [alook_aupd_ne _ _ _ _ h]
    exact alook_append_single_ne m _ _ _ h

/-- Characterisation of a fold of aggregation steps: each barcode's final
counters are the fold of the plain per-barcode update over exactly the
observations carrying that barcode, created lazily on its first one. -/
theorem alook_foldl_updateAll (l : List Obs) :
    ∀ (m : List (String × BarcodeCounters)) (bc : String),
    alook (l.foldl updateAll m) bc =
      match alook m bc with
      | some c => some ((l.filter (obsBc bc)).foldl update c)
      | none =>
          if l.any (obsBc bc) then some ((l.filter (obsBc bc)).foldl update initCounters)
          else none := by
  induction l with
  | nil =>
      intro m bc
      cases e : alook m bc <;> simp [e]
  | cons o t ih =>
      intro m bc
      simp only [List.foldl_cons]
      rw [ih (updateAll m o) bc]
      by_cases hbc : o.barcode = bc
      · subst hbc
        rw [alook_updateAll_self m o]
        cases e : alook m o.barcode with
        | some c =>
            simp only [e, Option.getD_some]
            simp [List.filter_cons, obsBc, e]
        | none =>
            simp only [e, Option.getD_none]
            simp [List.filter_cons, obsBc, e]
      · rw [alook_updateAll_ne m o bc (Ne.symm hbc)]
        cases e : alook m bc with
        | some c => simp [List.filter_cons, obsBc, hbc, e]
        | none => simp [List.filter_cons, obsBc, hbc, e]

/-- C8: after any sequence of aggregation updates, every barcode's total
read count is the sum of its target- and non-target-channel read counts, and
its total base count is the sum of its target- and non-target-channel base
counts. -/
theorem c8_thm (l : List Obs) (bc : String) (c : BarcodeCounters)
    (h : alook (l.foldl updateAll []) bc = some c) :
    c.total_reads = c.target_channel_reads + c.non_target_channel_reads ∧
    c.total_bases = c.target_channel_bases + c.non_target_channel_bases := by
  rw [alook_foldl_updateAll l [] bc] at h
  simp only [alook] at h
  by_cases ha : l.any (obsBc bc) = true
  · rw [if_pos ha] at h
    have hc : (l.filter (obsBc bc)).foldl update initCounters = c := Option.some.inj h
    rw [← hc]
    exact c8_inv (l.filter (obsBc bc)) initCounters rfl rfl
  · rw [if_neg ha] at h
    exact Option.noConfusion h

/-- C8 witness: the theorem applied to a concrete run of one target and one
non-target read under the same barcode. -/
theorem c8_witness :
    alook (List.foldl updateAll []
        ([⟨"barcode01", true, "X", 80, 100⟩,
          ⟨"barcode01", false, "unaligned", 50, 50⟩] : List Obs))
      "barcode01"
      = some (update (update initCounters ⟨"barcode01", true, "X", 80, 100⟩)
          ⟨"barcode01", false, "unaligned", 50, 50⟩) ∧
    ((update (update initCounters ⟨"barcode01", true, "X", 80, 100⟩)
          ⟨"barcode01", false, "unaligned", 50, 50⟩).total_reads
        = (update (update initCounters ⟨"barcode01", true, "X", 80, 100⟩)
            ⟨"barcode01", false, "unaligned", 50, 50⟩).target_channel_reads
          + (update (update initCounters ⟨"barcode01", true, "X", 80, 100⟩)
              ⟨"barcode01", false, "unaligned", 50, 50⟩).non_target_channel_reads ∧
      (update (update initCounters ⟨"barcode01", true, "X", 80, 100⟩)
          ⟨"barcode01", false, "unaligned", 50, 50⟩).total_bases
        = (update (update initCounters ⟨"barcode01", true, "X", 80, 100⟩)
            ⟨"barcode01", false, "unaligned", 50, 50⟩).target_channel_bases
          + (update (update initCounters ⟨"barcode01", true, "X", 80, 100⟩)
              ⟨"barcode01", false, "unaligned", 50, 50⟩).non_target_channel_bases) :=
  ⟨by decide,
   c8_thm ([⟨"barcode01", true, "X", 80, 100⟩,
                ⟨"barcode01", false, "unaligned", 50, 50⟩] : List Obs)
     "barcode01" _ (by decide)⟩

/-- The per-read increments of a bucket bump on the two read counters. -/
theorem bumpBucket_reads (o : Obs) (b : ContigBucket) :
    projTR (bumpBucket o b) = projTR b + (if fTgt o then 1 else 0) ∧
    projNTR (bumpBucket o b) = projNTR b + (if fNtg o then 1 else 0) := by
  cases ht : o.target <;> simp [bumpBucket, projTR, projNTR, fTgt, fNtg, ht]

/-- One aggregation update changes a projected bucket sum by exactly the
projected bump of the touched bucket. -/
theorem sum_update_ref_dict (proj : ContigBucket → Nat) (c : BarcodeCounters) (o : Obs)
    (hz : proj zeroBucket = 0) :
    ((update c o).ref_dict.map (fun p => proj p.2)).sum
        + proj ((alook c.ref_dict o.ref_align).getD zeroBucket)
      = (c.ref_dict.map (fun p => proj p.2)).sum
        + proj (bumpBucket o ((alook c.ref_dict o.ref_align).getD zeroBucket)) := by
  rw [update_ref_dict c o]
  by_cases e : (alook c.ref_dict o.ref_align).isSome
  · obtain ⟨b, hb⟩ := Option.isSome_iff_exists.mp e
    rw [if_pos e, hb]
    simp only [Option.getD_some]
    exact sum_aupd proj c.ref_dict o.ref_align (bumpBucket o) b hb
  · have hn : alook c.ref_dict o.ref_align = none := Option.not_isSome_iff_eq_none.mp e
    rw [if_neg e, hn]
    simp only [Option.getD_none]
    have hpres : alook (c.ref_dict ++ [(o.ref_align, zeroBucket)]) o.ref_align
        = some zeroBucket := alook_append_single_self c.ref_dict o.ref_align zeroBucket hn
    have hsum := sum_aupd proj (c.ref_dict ++ [(o.ref_align, zeroBucket)]) o.ref_align
      (bumpBucket o) zeroBucket hpres
    have happ := sum_append_single proj c.ref_dict o.ref_align zeroBucket
    omega

/-- The bucket-sum invariant is preserved by any fold of aggregation
updates. -/
theorem c10_inv (l : List Obs) : ∀ c : BarcodeCounters,
    (c.ref_dict.map (fun p => projTR p.2)).sum = c.target_channel_reads →
    (c.ref_dict.map (fun p => projNTR p.2)).sum = c.non_target_channel_reads →
    ((l.foldl update c).ref_dict.map (fun p => projTR p.2)).sum
        = (l.foldl update c).target_channel_reads ∧
    ((l.foldl update c).ref_dict.map (fun p => projNTR p.2)).sum
        = (l.foldl update c).non_target_channel_reads := by
  induction l with
  | nil => intro c q1 q2; exact ⟨q1, q2⟩
  | cons o t ih =>
      intro c q1 q2
      simp only [List.foldl_cons]
      obtain ⟨-, -, f3, f4, -, -, -, -, -, -⟩ := update_fields c o
      have s1 := sum_update_ref_dict projTR c o rfl
      have s2 := sum_update_ref_dict projNTR c o rfl
      obtain ⟨b1, b2⟩ := bumpBucket_reads o ((alook c.ref_dict o.ref_align).getD zeroBucket)
      exact ih (update c o) (by omega) (by omega)

/-- C10: after any sequence of aggregation updates, for each barcode the sum
over its contig buckets of the buckets' target-channel read counts equals the
barcode-level target-channel read count, and likewise for the non-target
side. -/
theorem c10_thm (l : List Obs) (bc : String) (c : BarcodeCounters)
    (h : alook (l.foldl updateAll []) bc = some c) :
    (c.ref_dict.map (fun p => projTR p.2)).sum = c.target_channel_reads ∧
    (c.ref_dict.map (fun p => projNTR p.2)).sum = c.non_target_channel_reads := by
  rw [alook_foldl_updateAll l [] bc] at h
  simp only [alook] at h
  by_cases ha : l.any (obsBc bc) = true
  · rw [if_pos ha] at h
    have hc : (l.filter (obsBc bc)).foldl update initCounters = c := Option.some.inj h
    rw [← hc]
    exact c10_inv (l.filter (obsBc bc)) initCounters rfl rfl
  · rw [if_neg ha] at h
    exact Option.noConfusion h

/-- C10 witness: the theorem applied to a concrete run of two reads on
distinct contigs under the same barcode. -/
theorem c10_witness :
    alook (List.foldl updateAll []
        ([⟨"barcode02", true, "X", 80, 100⟩, ⟨"barcode02", true, "Y", 30, 40⟩] : List Obs))
      "barcode02"
      = some (update (update initCounters ⟨"barcode02", true, "X", 80, 100⟩)
          ⟨"barcode02", true, "Y", 30, 40⟩) ∧
    (((update (update initCounters ⟨"barcode02", true, "X", 80, 100⟩)
          ⟨"barcode02", true, "Y", 30, 40⟩).ref_dict.map (fun p => projTR p.2)).sum
        = (update (update initCounters ⟨"barcode02", true, "X", 80, 100⟩)
            ⟨"barcode02", true, "Y", 30, 40⟩).target_channel_reads ∧
      ((update (update initCounters ⟨"barcode02", true, "X", 80, 100⟩)
          ⟨"barcode02", true, "Y", 30, 40⟩).ref_dict.map (fun p => projNTR p.2)).sum
        = (update (update initCounters ⟨"barcode02", true, "X", 80, 100⟩)
            ⟨"barcode02", true, "Y", 30, 40⟩).non_target_channel_reads) :=
  ⟨by decide,
   c10_thm ([⟨"barcode02", true, "X", 80, 100⟩,
                 ⟨"barcode02", true, "Y", 30, 40⟩] : List Obs)
     "barcode02" _ (by decide)⟩

/-- Permutations preserve the any-combinator. -/
theorem perm_any {α : Type} {l₁ l₂ : List α} (h : l₁.Perm l₂) (p : α → Bool) :
    l₁.any p = l₂.any p := by
  by_cases h1 : l₁.any p = true
  · obtain ⟨x, hx, hp⟩ := List.any_eq_true.mp h1
    exact h1.trans (List.any_eq_true.mpr ⟨x, h.mem_iff.mp hx, hp⟩).symm
  · have h2 : ¬ l₂.any p = true := by
      intro hc
      obtain ⟨x, hx, hp⟩ := List.any_eq_true.mp hc
      exact h1 (List.any_eq_true.mpr ⟨x, h.mem_iff.mpr hx, hp⟩)
    rw [Bool.not_eq_true] at h1 h2
    rw [h1, h2]

/-- Permutations preserve filtered total-length sums. -/
theorem perm_sumTL {l₁ l₂ : List Obs} (h : l₁.Perm l₂) (p : Obs → Bool) :
    sumTL l₁ p = sumTL l₂ p :=
  List.Perm.sum_eq (List.Perm.map _ (h.filter p))

/-- Permutations preserve filtered matched-length sums. -/
theorem perm_sumML {l₁ l₂ : List Obs} (h : l₁.Perm l₂) (p : Obs → Bool) :
    sumML l₁ p = sumML l₂ p :=
  List.Perm.sum_eq (List.Perm.map _ (h.filter p))

/-- Permutations preserve filtered counts. -/
theorem perm_cntF {l₁ l₂ : List Obs} (h : l₁.Perm l₂) (p : Obs → Bool) :
    cntF l₁ p = cntF l₂ p :=
  List.Perm.length_eq (h.filter p)

/-- Permutations preserve bucket contributions. -/
theorem bucketContrib_perm {l₁ l₂ : List Obs} (h : l₁.Perm l₂) (k : String)
    (b : ContigBucket) : bucketContrib l₁ k b = bucketContrib l₂ k b := by
  simp [bucketContrib, perm_sumML h, perm_cntF h]

/-- Folding an observation whose contig matches the key into a bucket before
summing the rest equals the whole contribution. -/
theorem bucket_cons_self (o : Obs) (t : List Obs) (k : String) (b : ContigBucket)
    (hk : o.ref_align = k) :
    bucketContrib t k (bumpBucket o b) = bucketContrib (o :: t) k b := by
  subst hk
  cases ht : o.target <;>
    simp [bucketContrib, bumpBucket, sumML_cons, cntF_cons, obsTgtOn, obsNtgOn, ht] <;>
    omega

/-- An observation on a different contig contributes nothing to a bucket. -/
theorem bucket_cons_ne (o : Obs) (t : List Obs) (k : String) (b : ContigBucket)
    (hk : o.ref_align ≠ k) :
    bucketContrib (o :: t) k b = bucketContrib t k b := by
  simp [bucketContrib, sumML_cons, cntF_cons, obsTgtOn, obsNtgOn, hk]

/-- Characterisation of each contig bucket after a fold of aggregation
updates: its value is the starting bucket (or a lazily created zero bucket)
plus the filtered sums of the observations on that contig. -/
theorem alook_refdict_foldl (l : List Obs) : ∀ (c : BarcodeCounters) (k : String),
    alook (l.foldl update c).ref_dict k =
      match alook c.ref_dict k with
      | some b => some (bucketContrib l k b)
      | none =>
          if l.any (obsOn k) then some (bucketContrib l k zeroBucket) else none := by
  induction l with
  | nil =>
      intro c k
      cases e : alook c.ref_dict k <;> simp [e, bucketContrib, sumML, cntF]
  | cons o t ih =>
      intro c k
      simp only [List.foldl_cons]
      rw [ih (update c o) k]
      by_cases hk : o.ref_align = k
      · have hself : alook (update c o).ref_dict k
            = some (bumpBucket o ((alook c.ref_dict k).getD zeroBucket)) := by
          rw [update_ref_dict c o, hk]
          by_cases e : (alook c.ref_dict k).isSome
          · obtain ⟨b, hb⟩ := Option.isSome_iff_exists.mp e
            rw [if_pos e, alook_aupd_self, hb]
            simp
          · have hn := Option.not_isSome_iff_eq_none.mp e
            rw [if_neg e, alook_aupd_self, alook_append_single_self _ _ _ hn, hn]
            simp
        rw [hself]
        cases e : alook c.ref_dict k with
        | some b =>
            simp only [e, Option.getD_some]
            exact congrArg some (bucket_cons_self o t k b hk)
        | none =>
            simp only [e, Option.getD_none]
            have hany : (o :: t).any (obsOn k) = true := by simp [obsOn, hk]
            rw [hany]
            simp only [if_true]
            exact congrArg some (bucket_cons_self o t k zeroBucket hk)
      · have hkk : k ≠ o.ref_align := fun hc => hk hc.symm
        have hne : alook (update c o).ref_dict k = alook c.ref_dict k := by
          rw [update_ref_dict c o, alook_aupd_ne _ _ _ _ hkk]
          by_cases e : (alook c.ref_dict o.ref_align).isSome
          · rw [if_pos e]
          · rw [if_neg e, alook_append_single_ne _ _ _ _ hkk]
        rw [hne]
        cases e : alook c.ref_dict k with
        | some b =>
            simp only [e]
            exact congrArg some (bucket_cons_ne o t k b hk).symm
        | none =>
            simp only [e]
            have hany : (o :: t).any (obsOn k) = t.any (obsOn k) := by simp [obsOn, hk]
            rw [hany]
            by_cases ha : t.any (obsOn k) = true
            · rw [if_pos ha, if_pos ha]
              exact congrArg some (bucket_cons_ne o t k zeroBucket hk).symm
            · rw [if_neg ha, if_neg ha]

/-- Folding a permuted observation list from the same starting counters
yields equivalent counters. -/
theorem countersEquiv_foldl_perm {la lb : List Obs} (hp : la.Perm lb) (c : BarcodeCounters) :
    countersEquiv (la.foldl update c) (lb.foldl update c) := by
  obtain ⟨a1, a2, a3, a4, a5, a6, a7, a8, a9, a10⟩ := update_foldl_scalars la c
  obtain ⟨b1, b2, b3, b4, b5, b6, b7, b8, b9, b10⟩ := update_foldl_scalars lb c
  refine ⟨?_, ?_, ?_, ?_, ?_, ?_, ?_, ?_, ?_, ?_, ?_⟩
  · rw [a1, b1, perm_sumTL hp]
  · rw [a2, b2, perm_sumTL hp]
  · rw [a3, b3, perm_cntF hp]
  · rw [a4, b4, perm_cntF hp]
  · rw [a5, b5, perm_sumML hp]
  · rw [a6, b6, perm_sumML hp]
  · rw [a7, b7, perm_cntF hp]
  · rw [a8, b8, perm_cntF hp]
  · rw [a9, b9, perm_sumTL hp]
  · rw [a10, b10, hp.length_eq]
  · intro k
    rw [alook_refdict_foldl la c k, alook_refdict_foldl lb c k]
    cases e : alook c.ref_dict k with
    | some b => simp only [bucketContrib_perm hp]
    | none => rw [perm_any hp (obsOn k), bucketContrib_perm hp]

/-- C9: aggregation is order-independent — applying the same multiset of
classified observations in any permutation yields, for every barcode, either
no counters on both sides or counters agreeing on every scalar field and on
every contig bucket. -/
theorem c9_thm (l₁ l₂ : List Obs) (h : l₁.Perm l₂) :
    resultsEquiv (l₁.foldl updateAll []) (l₂.foldl updateAll []) := by
  intro bc
  have hf : (l₁.filter (obsBc bc)).Perm (l₂.filter (obsBc bc)) := h.filter (obsBc bc)
  have hany : l₁.any (obsBc bc) = l₂.any (obsBc bc) := perm_any h (obsBc bc)
  have h1 := alook_foldl_updateAll l₁ [] bc
  have h2 := alook_foldl_updateAll l₂ [] bc
  simp only [alook] at h1 h2
  by_cases ha : l₁.any (obsBc bc) = true
  · refine Or.inr ⟨(l₁.filter (obsBc bc)).foldl update initCounters,
      (l₂.filter (obsBc bc)).foldl update initCounters, ?_, ?_, ?_⟩
    · rw [h1, if_pos ha]
    · rw [h2, if_pos (hany ▸ ha)]
    · exact countersEquiv_foldl_perm hf initCounters
  · refine Or.inl ⟨?_, ?_⟩
    · rw [h1, if_neg ha]
    · rw [h2, if_neg (hany ▸ ha)]

/-- C9 witness: the theorem applied to the two orders of a concrete pair of
observations with distinct barcodes and contigs. -/
theorem c9_witness :
    resultsEquiv
      (List.foldl updateAll []
        ([⟨"barcode03", true, "X", 80, 100⟩, ⟨"NA", false, "unaligned", 50, 50⟩] : List Obs))
      (List.foldl updateAll []
        ([⟨"NA", false, "unaligned", 50, 50⟩, ⟨"barcode03", true, "X", 80, 100⟩] : List Obs)) :=
  c9_thm _ _
    (List.Perm.swap (⟨"NA", false, "unaligned", 50, 50⟩ : Obs)
      (⟨"barcode03", true, "X", 80, 100⟩ : Obs) [])

/-- A lookup in a list with one appended entry either came from the original
list or returns the appended value. -/
theorem alook_append_single_cases {α : Type} (d : List (String × α)) (k j : String)
    (w v : α) (h : alook (d ++ [(k, w)]) j = some v) : alook d j = some v ∨ v = w := by
  cases e : alook d j with
  | some u =>
      have hu := (alook_append_some d [(k, w)] j u e).symm.trans h
      exact Or.inl hu
  | none =>
      rw [alook_append_none d _ j e] at h
      simp only [alook] at h
      by_cases hk : k = j
      · rw [if_pos hk] at h
        exact Or.inr (Option.some.inj h).symm
      · rw [if_neg hk] at h
        exact Option.noConfusion h

/-- Lazy key creation of the bootstrap base maps, on the adaptive side. -/
theorem ensureBoth_anb (st : BootState) (k : String) :
    alook (ensureBoth st k).anb k = some ((alook st.anb k).getD 0) ∧
    (∀ k2, k2 ≠ k → alook (ensureBoth st k).anb k2 = alook st.anb k2) := by
  by_cases e : (alook st.anb k).isSome
  · obtain ⟨v, hv⟩ := Option.isSome_iff_exists.mp e
    rw [show ensureBoth st k = st from by simp [ensureBoth, e]]
    exact ⟨by simp [hv], fun k2 h => rfl⟩
  · have hn := Option.not_isSome_iff_eq_none.mp e
    rw [show ensureBoth st k
        = { st with anb := st.anb ++ [(k, 0)], cnb := st.cnb ++ [(k, 0)] } from by
      simp [ensureBoth, e]]
    refine ⟨?_, fun k2 h => alook_append_single_ne _ _ _ _ h⟩
    rw [show ({ st with anb := st.anb ++ [(k, 0)], cnb := st.cnb ++ [(k, 0)] }
        : BootState).anb = st.anb ++ [(k, 0)] from rfl]
    rw [alook_append_single_self _ _ _ hn, hn]
    rfl

/-- One adaptive bootstrap read adds its matched length to its contig's
adaptive bases and leaves other contigs' adaptive bases unchanged. -/
theorem addAdaptive_anb (st : BootState) (r : BootRead) :
    alook (addAdaptive st r).anb r.align
      = some ((alook st.anb r.align).getD 0 + r.match_len) ∧
    (∀ k, k ≠ r.align → alook (addAdaptive st r).anb k = alook st.anb k) := by
  obtain ⟨h1, h2⟩ := ensureBoth_anb st r.align
  have hanb : (addAdaptive st r).anb
      = aupd (ensureBoth st r.align).anb r.align (fun v => v + r.match_len) := rfl
  constructor
  · rw [hanb, alook_aupd_self, h1]
    rfl
  · intro k hk
    rw [hanb, alook_aupd_ne _ _ _ _ hk, h2 k hk]

/-- One control bootstrap read leaves adaptive bases unchanged except for
lazily creating its own contig's key at zero. -/
theorem addControl_anb (st : BootState) (r : BootRead) :
    alook (addControl st r).anb r.align
      = some ((alook st.anb r.align).getD 0) ∧
    (∀ k, k ≠ r.align → alook (addControl st r).anb k = alook st.anb k) := by
  obtain ⟨h1, h2⟩ := ensureBoth_anb st r.align
  have hanb : (addControl st r).anb = (ensureBoth st r.align).anb := rfl
  exact ⟨by rw [hanb, h1], fun k hk => by rw [hanb, h2 k hk]⟩

/-- Head decomposition of the adaptive bases of a contig. -/
theorem aBases_cons (r : BootRead) (l : List BootRead) (k : String) :
    aBases (r :: l) k = (if r.align = k then r.match_len else 0) + aBases l k := by
  by_cases h : r.align = k <;> simp [aBases, List.filter_cons, h]

/-- A read on the contig contributes its matched length. -/
theorem aBases_cons_self (r : BootRead) (l : List BootRead) :
    aBases (r :: l) r.align = r.match_len + aBases l r.align := by
  simp [aBases_cons]

/-- A read on another contig contributes nothing. -/
theorem aBases_cons_ne (r : BootRead) (l : List BootRead) (k : String)
    (h : r.align ≠ k) : aBases (r :: l) k = aBases l k := by
  simp [aBases_cons, h]

/-- Characterisation of the adaptive base map after accumulating an adaptive
sample: each contig key holds its starting value plus the matched lengths of
the sample's reads on that contig, created on first sight. -/
theorem anb_foldl_addAdaptive (l : List BootRead) : ∀ (st : BootState) (k : String),
    alook ((l.foldl addAdaptive st).anb) k =
      match alook st.anb k with
      | some v => some (v + aBases l k)
      | none => if l.any (fun r => r.align == k) then some (aBases l k) else none := by
  induction l with
  | nil =>
      intro st k
      cases e : alook st.anb k <;> simp [e, aBases]
  | cons r t ih =>
      intro st k
      simp only [List.foldl_cons]
      rw [ih (addAdaptive st r) k]
      obtain ⟨hself, hother⟩ := addAdaptive_anb st r
      by_cases hk : r.align = k
      · subst hk
        rw [hself]
        cases e : alook st.anb r.align with
        | some v =>
            simp only [e, Option.getD_some, aBases_cons_self]
            exact congrArg some (by omega)
        | none =>
            simp only [e, Option.getD_none, aBases_cons_self]
            have hany : (r :: t).any (fun x => x.align == r.align) = true := by simp
            rw [hany]
            simp only [if_true]
            exact congrArg some (by omega)
      · rw [hother k (fun hc => hk hc.symm)]
        cases e : alook st.anb k with
        | some v =>
            simp only [e, aBases_cons_ne r t k hk]
        | none =>
            simp only [e]
            have hany : (r :: t).any (fun x => x.align == k) = t.any (fun x => x.align == k) := by
              simp [hk]
            rw [hany, aBases_cons_ne r t k hk]

/-- Characterisation of the adaptive base map after accumulating a control
sample: existing keys keep their values and control-only contigs are created
with adaptive bases zero. -/
theorem anb_foldl_addControl (l : List BootRead) : ∀ (st : BootState) (k : String),
    alook ((l.foldl addControl st).anb) k =
      match alook st.anb k with
      | some v => some v
      | none => if l.any (fun r => r.align == k) then some 0 else none := by
  induction l with
  | nil =>
      intro st k
      cases e : alook st.anb k <;> simp [e]
  | cons r t ih =>
      intro st k
      simp only [List.foldl_cons]
      rw [ih (addControl st r) k]
      obtain ⟨hself, hother⟩ := addControl_anb st r
      by_cases hk : r.align = k
      · subst hk
        rw [hself]
        cases e : alook st.anb r.align with
        | some v => simp [e]
        | none =>
            simp only [e, Option.getD_none]
            have hany : (r :: t).any (fun x => x.align == r.align) = true := by simp
            rw [hany]
            simp
      · rw [hother k (fun hc => hk hc.symm)]
        cases e : alook st.anb k with
        | some v => simp [e]
        | none =>
            simp only [e]
            have hany : (r :: t).any (fun x => x.align == k) = t.any (fun x => x.align == k) := by
              simp [hk]
            rw [hany]

/-- Accumulating a control sample never touches the adaptive base total. -/
theorem a_total_addControl (l : List BootRead) : ∀ st : BootState,
    (l.foldl addControl st).a_total = st.a_total := by
  induction l with
  | nil => intro st; rfl
  | cons r t ih =>
      intro st
      simp only [List.foldl_cons]
      rw [ih (addControl st r)]
      have h1 : (addControl st r).a_total = (ensureBoth st r.align).a_total := rfl
      have h2 : (ensureBoth st r.align).a_total = st.a_total := by
        by_cases e : (alook st.anb r.align).isSome <;> simp [ensureBoth, e]
      rw [h1, h2]

/-- Accumulating an adaptive sample adds its total read length to the
adaptive base total. -/
theorem a_total_addAdaptive (l : List BootRead) : ∀ st : BootState,
    (l.foldl addAdaptive st).a_total = st.a_total + aTotal l := by
  induction l with
  | nil => intro st; simp [aTotal]
  | cons r t ih =>
      intro st
      simp only [List.foldl_cons]
      rw [ih (addAdaptive st r)]
      have h1 : (addAdaptive st r).a_total = (ensureBoth st r.align).a_total + r.read_len := rfl
      have h2 : (ensureBoth st r.align).a_total = st.a_total := by
        by_cases e : (alook st.anb r.align).isSome <;> simp [ensureBoth, e]
      rw [h1, h2]
      simp [aTotal]
      omega

/-- Accumulating an adaptive sample never touches the control base total. -/
theorem c_total_addAdaptive (l : List BootRead) : ∀ st : BootState,
    (l.foldl addAdaptive st).c_total = st.c_total := by
  induction l with
  | nil => intro st; rfl
  | cons r t ih =>
      intro st
      simp only [List.foldl_cons]
      rw [ih (addAdaptive st r)]
      show (ensureBoth st r.align).c_total = st.c_total
      by_cases e : (alook st.anb r.align).isSome <;> simp [ensureBoth, e]

/-- Accumulating an adaptive sample leaves every control base value zero when
it started out all zero. -/
theorem cnb_zero_addAdaptive (l : List BootRead) : ∀ st : BootState,
    (∀ k v, alook st.cnb k = some v → v = 0) →
    ∀ k v, alook ((l.foldl addAdaptive st).cnb) k = some v → v = 0 := by
  induction l with
  | nil => intro st h; exact h
  | cons r t ih =>
      intro st h
      simp only [List.foldl_cons]
      refine ih (addAdaptive st r) ?_
      intro k v hv
      have hcnb : (addAdaptive st r).cnb = (ensureBoth st r.align).cnb := rfl
      rw [hcnb] at hv
      by_cases e : (alook st.anb r.align).isSome
      · rw [show (ensureBoth st r.align).cnb = st.cnb from by simp [ensureBoth, e]] at hv
        exact h k v hv
      · rw [show (ensureBoth st r.align).cnb = st.cnb ++ [(r.align, 0)] from by
          simp [ensureBoth, e]] at hv
        rcases alook_append_single_cases st.cnb r.align k 0 v hv with hc | hc
        · exact h k v hc
        · exact hc

/-- The lookup of a bootstrap iteration's output maps the adaptive base map
through the per-contig enrichment value. -/
theorem alook_bootstrapIter (adaptive_sample control_sample : List BootRead) (k : String) :
    alook (bootstrapIter adaptive_sample control_sample) k =
      (alook (control_sample.foldl addControl
          (adaptive_sample.foldl addAdaptive initBoot)).anb k).map
        (enrichOf (control_sample.foldl addControl
          (adaptive_sample.foldl addAdaptive initBoot)) k) :=
  alook_map _ _ k

/-- The enrichment value of a contig with zero adaptive bases is zero. -/
theorem enrichOf_zero (st : BootState) (k : String) : enrichOf st k 0 = 0 := by
  simp [enrichOf]

/-- When the adaptive base total is zero every enrichment value is zero. -/
theorem enrichOf_a_total_zero (st : BootState) (k : String) (ab : Nat)
    (h : st.a_total = 0) : enrichOf st k ab = 0 := by
  simp [enrichOf, h]

/-- Core fact for C3: a contig drawn in the control sample but not in the
adaptive sample still receives a value in the iteration's output, and that
value is zero. -/
theorem boot_control_only_zero (adaptive_sample control_sample : List BootRead) (k : String)
    (hc : control_sample.any (fun r => r.align == k) = true)
    (hna : adaptive_sample.any (fun r => r.align == k) = false) :
    alook (bootstrapIter adaptive_sample control_sample) k = some 0 := by
  rw [alook_bootstrapIter]
  rw [anb_foldl_addControl, anb_foldl_addAdaptive]
  have hinit : alook (initBoot.anb) k = none := rfl
  rw [hinit]
  simp only [hna, Bool.false_eq_true, if_false, hc, if_true]
  simp [enrichOf_zero]

/-- C3 counterexample: contig "Y" appears only in the control sample, yet the
iteration appends a value for it — refuting the claim that a control-only
contig has no value appended. -/
theorem c3_counterexample :
    alook (bootstrapIter [⟨"X", 80, 100⟩] [⟨"Y", 10, 100⟩]) "Y" = some 0 :=
  boot_control_only_zero [⟨"X", 80, 100⟩] [⟨"Y", 10, 100⟩] "Y" (by decide) (by decide)

/-- C3 (amended): in a bootstrap iteration, a contig appearing in the drawn
control sample but not in the drawn target sample does receive an enrichment
value for that iteration, and that value is always 0 (its adaptive base count
is created at zero by the control loop). -/
theorem c3_thm (adaptive_sample control_sample : List BootRead) (k : String)
    (hc : control_sample.any (fun r => r.align == k) = true)
    (hna : adaptive_sample.any (fun r => r.align == k) = false) :
    alook (bootstrapIter adaptive_sample control_sample) k = some 0 :=
  boot_control_only_zero adaptive_sample control_sample k hc hna

/-- C3 witness: the amended theorem applied to a concrete pair of samples
with a control-only contig. -/
theorem c3_witness :
    alook (bootstrapIter [⟨"X", 80, 100⟩] [⟨"Z", 5, 50⟩, ⟨"Y", 10, 100⟩]) "Z" = some 0 :=
  c3_thm [⟨"X", 80, 100⟩] [⟨"Z", 5, 50⟩, ⟨"Y", 10, 100⟩] "Z" (by decide) (by decide)

/-- C5 counterexample: with an empty control group and target sample
[("X", 80, 100)], resampling completes but the emitted enrichment for "X" is
(80/100)/((1/1)) = 4/5, not 0 — refuting the claim that every value emitted
is 0 whenever the target or the control group is empty. -/
theorem c5_counterexample :
    alook (bootstrapIter [⟨"X", 80, 100⟩] []) "X" = some ((4 : ℚ) / 5) ∧
    ¬ ((4 : ℚ) / 5 = 0) := by
  constructor
  · norm_num [bootstrapIter, addAdaptive, ensureBoth, initBoot, alook, aupd, enrichOf, fN]
  · norm_num

/-- C5 (amended): with an empty target group every value emitted in an
iteration is 0; with an empty control group the iteration completes without
failure and emits, for each contig of the target sample, the contig's
resampled base proportion (its bases over the target total, the control side
being floored to 1/1), which is 0 only when the target total is 0. -/
theorem c5_thm :
    (∀ (control_sample : List BootRead) (k : String) (v : ℚ),
        alook (bootstrapIter [] control_sample) k = some v → v = 0) ∧
    (∀ (adaptive_sample : List BootRead) (k : String) (v : ℚ),
        alook (bootstrapIter adaptive_sample []) k = some v →
        v = if aTotal adaptive_sample = 0 then 0
            else (aBases adaptive_sample k : ℚ) / (aTotal adaptive_sample : ℚ)) := by
  constructor
  · intro cs k v h
    rw [alook_bootstrapIter] at h
    have hat : (cs.foldl addControl (List.foldl addAdaptive initBoot [])).a_total = 0 := by
      rw [a_total_addControl]
      rfl
    cases e : alook (cs.foldl addControl (List.foldl addAdaptive initBoot [])).anb k with
    | none =>
        rw [e] at h
        exact Option.noConfusion h
    | some ab =>
        rw [e] at h
        have h2 : enrichOf (cs.foldl addControl (List.foldl addAdaptive initBoot [])) k ab
            = v := by simpa using h
        rw [← h2]
        exact enrichOf_a_total_zero _ k ab hat
  · intro l k v h
    rw [alook_bootstrapIter] at h
    have hfold : List.foldl addControl (l.foldl addAdaptive initBoot) []
        = l.foldl addAdaptive initBoot := rfl
    rw [hfold] at h
    cases e : alook (l.foldl addAdaptive initBoot).anb k with
    | none =>
        rw [e] at h
        exact Option.noConfusion h
    | some ab =>
        rw [e] at h
        have h2 : enrichOf (l.foldl addAdaptive initBoot) k ab = v := by simpa using h
        have hc : alook ((l.foldl addAdaptive initBoot).anb) k
            = if l.any (fun r => r.align == k) then some (aBases l k) else none := by
          rw [anb_foldl_addAdaptive l initBoot k]
          rfl
        have hab : ab = aBases l k := by
          by_cases ha : l.any (fun r => r.align == k) = true
          · have he := e.symm.trans hc
            rw [if_pos ha] at he
            exact Option.some.inj he
          · have he := e.symm.trans hc
            rw [if_neg ha] at he
            exact Option.noConfusion he
        have hgd : (alook (l.foldl addAdaptive initBoot).cnb k).getD 0 = 0 := by
          cases ec : alook (l.foldl addAdaptive initBoot).cnb k with
          | none => rfl
          | some w =>
              have := cnb_zero_addAdaptive l initBoot
                (fun k2 v2 hv2 => Option.noConfusion hv2) k w ec
              simpa using this
        have hct : (l.foldl addAdaptive initBoot).c_total = 0 := by
          rw [c_total_addAdaptive]
          rfl
        have hat : (l.foldl addAdaptive initBoot).a_total = aTotal l := by
          rw [a_total_addAdaptive]
          simp [initBoot]
        rw [← h2, hab]
        simp only [enrichOf, hgd, hct, hat]
        norm_num [fN]

/-- C5 witness: the theorem's empty-target half applied to a concrete
control sample, whose single emitted value is 0. -/
theorem c5_witness :
    alook (bootstrapIter [] [⟨"Y", 10, 100⟩]) "Y" = some 0 ∧ (0 : ℚ) = 0 :=
  ⟨by decide, c5_thm.1 [⟨"Y", 10, 100⟩] "Y" 0 (by decide)⟩

/-- The floor-to-one guard is idempotent. -/
theorem fN_idem (n : Nat) : fN (fN n) = fN n := by
  by_cases h : n = 0 <;> simp [fN, h]

/-- The target summary loop writes one entry per ref, in order, holding only
its Target_prop_bases value, when the contig keys are distinct. -/
theorem foldl_tgtStep (tt : Nat) (refs : List (String × ContigBucket)) :
    ∀ d : List (String × EnrichEntry),
    (∀ k, k ∈ refs.map Prod.fst → alook d k = none) →
    (refs.map Prod.fst).Nodup →
    refs.foldl (tgtStep tt) d
      = d ++ refs.map (fun p =>
          (p.1, (⟨some (tpbVal tt p.2.target_channel_bases), none⟩ : EnrichEntry))) := by
  induction refs with
  | nil =>
      intro d h hn
      simp
  | cons p t ih =>
      intro d h hn
      simp only [List.foldl_cons, List.map_cons]
      have hp : alook d p.1 = none := h p.1 (by simp)
      have hstep : tgtStep tt d p
          = d ++ [(p.1, (⟨some (tpbVal tt p.2.target_channel_bases), none⟩ : EnrichEntry))] := by
        simp [tgtStep, dinsert, hp]
      rw [hstep]
      simp only [List.map_cons, List.nodup_cons] at hn
      have h2 : ∀ k, k ∈ t.map Prod.fst →
          alook (d ++ [(p.1, (⟨some (tpbVal tt p.2.target_channel_bases), none⟩
            : EnrichEntry))]) k = none := by
        intro k hk
        rw [alook_append_single_ne _ _ _ _ (fun hc => hn.1 (by rw [← hc]; exact hk))]
        exact h k (by simp [hk])
      rw [ih _ h2 hn.2]
      simp

/-- The non-target summary loop adds each ref's Nontarget_bases_mapped value
to its existing entry, in place, when the contig keys are distinct. -/
theorem foldl_ntgStep (refs : List (String × ContigBucket))
    (a : String × ContigBucket → ℚ) :
    ∀ d1 : List (String × EnrichEntry),
    (refs.map Prod.fst).Nodup →
    (∀ k, k ∈ refs.map Prod.fst → alook d1 k = none) →
    refs.foldl ntgStep
        (d1 ++ refs.map (fun p => (p.1, (⟨some (a p), none⟩ : EnrichEntry))))
      = d1 ++ refs.map (fun p =>
          (p.1, (⟨some (a p), some p.2.non_target_channel_bases⟩ : EnrichEntry))) := by
  induction refs with
  | nil =>
      intro d1 hn h
      simp
  | cons p t ih =>
      intro d1 hn h
      simp only [List.map_cons, List.foldl_cons]
      have hp : alook d1 p.1 = none := h p.1 (by simp)
      have hlook : alook (d1 ++ (p.1, (⟨some (a p), none⟩ : EnrichEntry))
          :: t.map (fun q => (q.1, (⟨some (a q), none⟩ : EnrichEntry)))) p.1
          = some (⟨some (a p), none⟩ : EnrichEntry) := by
        rw [alook_append_none d1 _ _ hp]
        simp [alook]
      have hstep : ntgStep (d1 ++ (p.1, (⟨some (a p), none⟩ : EnrichEntry))
            :: t.map (fun q => (q.1, (⟨some (a q), none⟩ : EnrichEntry)))) p
          = (d1 ++ [(p.1, (⟨some (a p), some p.2.non_target_channel_bases⟩ : EnrichEntry))])
            ++ t.map (fun q => (q.1, (⟨some (a q), none⟩ : EnrichEntry))) := by
        simp only [ntgStep, hlook, Option.isSome_some, if_true]
        rw [aupd_append_of_none d1 _ _ _ hp]
        simp [aupd]
      rw [hstep]
      simp only [List.map_cons, List.nodup_cons] at hn
      have h2 : ∀ k, k ∈ t.map Prod.fst →
          alook (d1 ++ [(p.1, (⟨some (a p), some p.2.non_target_channel_bases⟩
            : EnrichEntry))]) k = none := by
        intro k hk
        rw [alook_append_single_ne _ _ _ _ (fun hc => hn.1 (by rw [← hc]; exact hk))]
        exact h k (by simp [hk])
      rw [ih _ hn.2 h2]
      simp

/-- The emission loop over entries holding both keys emits one line per
entry, flooring the contig's non-target bases and the barcode's non-target
total to one. -/
theorem foldl_emitStep_fst (refs : List (String × ContigBucket))
    (a : String × ContigBucket → ℚ) (b : String × ContigBucket → Nat) :
    ∀ (out : List (String × ℚ)) (nt : Nat),
    ((refs.map (fun p => (p.1, (⟨some (a p), some (b p)⟩ : EnrichEntry)))).foldl
        emitStep (out, nt)).1
      = out ++ refs.map (fun p => (p.1, a p / ((fN (b p) : ℚ) / (fN nt : ℚ)))) := by
  induction refs with
  | nil =>
      intro out nt
      simp
  | cons p t ih =>
      intro out nt
      simp only [List.map_cons, List.foldl_cons]
      have hstep : emitStep (out, nt) (p.1, (⟨some (a p), some (b p)⟩ : EnrichEntry))
          = (out ++ [(p.1, a p / ((fN (b p) : ℚ) / (fN nt : ℚ)))], fN nt) := rfl
      rw [hstep, ih (out ++ [(p.1, a p / ((fN (b p) : ℚ) / (fN nt : ℚ)))]) (fN nt)]
      simp [fN_idem]

/-- Full characterisation of the point-estimate emission for a contig table
with distinct keys: one enrichment line per contig, in table order, each equal
to the contig's target base proportion over its floored non-target base
proportion. -/
theorem pointEnrichment_char (refs : List (String × ContigBucket)) (tt nt : Nat)
    (hn : (refs.map Prod.fst).Nodup) :
    pointEnrichment refs tt nt
      = refs.map (fun p =>
          (p.1, tpbVal tt p.2.target_channel_bases
            / ((fN p.2.non_target_channel_bases : ℚ) / (fN nt : ℚ)))) := by
  have h1 := foldl_tgtStep tt refs [] (fun k _ => rfl) hn
  have h2 := foldl_ntgStep refs (fun p => tpbVal tt p.2.target_channel_bases) [] hn
    (fun k _ => rfl)
  have h3 := foldl_emitStep_fst refs (fun p => tpbVal tt p.2.target_channel_bases)
    (fun p => p.2.non_target_channel_bases) [] nt
  show ((refs.foldl ntgStep (refs.foldl (tgtStep tt) [])).foldl emitStep ([], nt)).1 = _
  rw [h1]
  exact (congrArg (fun d => (d.foldl emitStep ([], nt)).1) h2).trans
    (h3.trans (List.nil_append _))

/-- C4 counterexample: a barcode whose only read is a target-channel read on
contig "X" still gets a point-estimate enrichment line for "X" (with the
non-target side floored to 1), refuting the claim that target-only contigs
never receive one. -/
theorem c4_counterexample :
    pointEnrichment (update initCounters ⟨"b", true, "X", 80, 100⟩).ref_dict
      (update initCounters ⟨"b", true, "X", 80, 100⟩).target_channel_bases
      (update initCounters ⟨"b", true, "X", 80, 100⟩).non_target_channel_bases
      = [("X", (4 : ℚ) / 5)] := by
  rw [show (update initCounters ⟨"b", true, "X", 80, 100⟩).ref_dict
      = [("X", (⟨80, 0, 1, 0⟩ : ContigBucket))] from by decide]
  rw [show (update initCounters ⟨"b", true, "X", 80, 100⟩).target_channel_bases = 100 from by
    decide]
  rw [show (update initCounters ⟨"b", true, "X", 80, 100⟩).non_target_channel_bases = 0 from by
    decide]
  rw [pointEnrichment_char [("X", ⟨80, 0, 1, 0⟩)] 100 0 (by decide)]
  norm_num [tpbVal, fN]

/-- C4 (amended): a point-estimate enrichment line is emitted for every
contig of the barcode's contig table — both summary loops iterate the same
table, so both dict keys are always present — including contigs observed only
on target channels, whose non-target bases are floored to 1; the emitted
value is the target base proportion over the floored non-target base
proportion. -/
theorem c4_thm (refs : List (String × ContigBucket)) (tt nt : Nat)
    (hn : (refs.map Prod.fst).Nodup) :
    pointEnrichment refs tt nt
      = refs.map (fun p =>
          (p.1, tpbVal tt p.2.target_channel_bases
            / ((fN p.2.non_target_channel_bases : ℚ) / (fN nt : ℚ)))) :=
  pointEnrichment_char refs tt nt hn

/-- C4 witness: the amended theorem applied to a concrete two-contig table
with one target-only contig. -/
theorem c4_witness :
    pointEnrichment [("X", ⟨80, 0, 1, 0⟩), ("Y", ⟨0, 30, 0, 1⟩)] 100 30
      = [("X", tpbVal 100 80 / ((fN 0 : ℚ) / (fN 30 : ℚ))),
         ("Y", tpbVal 100 0 / ((fN 30 : ℚ) / (fN 30 : ℚ)))] :=
  c4_thm [("X", ⟨80, 0, 1, 0⟩), ("Y", ⟨0, 30, 0, 1⟩)] 100 30 (by decide)
